import Mathlib

/-!
Shallow embedding of the tic-tac-toe game engine
(`src/town/games/TicTacToeGame.ts`) and its area command router
(`src/town/games/TicTacToeGameArea.ts`).

Players are identified by their id strings.  The abstract `Game` and
`GameArea` base classes are not part of the sources; the thin wrapper
behaviour they contribute (recording the list of participants on `join`,
removing the leaver on `leave`, the `game`/`occupants`/`history` fields of
the area) is modelled from the specification where noted.
-/

namespace TicTacToe

/-- `TicTacToeGridPosition` is the type `0 | 1 | 2` of `CoveyTownSocket`. -/
abbrev GridPos := Fin 3

/-- The two game pieces, `'X' | 'O'`. -/
inductive GamePiece where
  | X
  | O
deriving DecidableEq, Repr

/-- The game status values of `TicTacToeGameState`. -/
inductive GameStatus where
  | WAITING_TO_START
  | IN_PROGRESS
  | OVER
deriving DecidableEq, Repr

/-- The error-message constants of `InvalidParametersError.ts` that the two
source files throw. -/
inductive GameErr where
  | GAME_NOT_IN_PROGRESS
  | BOARD_POSITION_NOT_EMPTY
  | MOVE_NOT_YOUR_TURN
  | GAME_FULL
  | PLAYER_ALREADY_IN_GAME
  | PLAYER_NOT_IN_GAME
  | GAME_ID_MISSMATCH
  | INVALID_COMMAND
deriving DecidableEq, Repr

/-- `TicTacToeMove` of `CoveyTownSocket`: a row, a column and a piece. -/
structure TicTacToeMove where
  row : GridPos
  col : GridPos
  gamePiece : GamePiece
deriving DecidableEq, Repr

/-- `GameMove<TicTacToeMove>`: the player id, the game id and the move. -/
structure GameMove where
  playerID : String
  gameID : String
  move : TicTacToeMove
deriving DecidableEq, Repr

/-- `TicTacToeGameState` together with the `_players` list of the `Game`
base class.  `players` holds the participant ids, in join order.
Modelled from the spec: the base class (absent from the sources) keeps the
ordered list of current participants; `_players[i]` is modelled as
`players[i]` and `player.id` equality replaces object identity. -/
structure GameState where
  moves : List TicTacToeMove
  status : GameStatus
  x : Option String
  o : Option String
  winner : Option String
  players : List String
deriving DecidableEq, Repr

/-- The state built by the `TicTacToeGame` constructor: no moves, status
`WAITING_TO_START`, no marks assigned, no participants. -/
def initialGame : GameState :=
  { moves := [], status := GameStatus.WAITING_TO_START,
    x := none, o := none, winner := none, players := [] }

/-- `TicTacToeGame._moveIsValid`, with the piece of the incoming move
already overwritten by `applyMove`.  Returns `some e` when the source
throws the error `e` and `none` when it returns `true`.  The checks run in
source order: status, occupied cell (the `forEach` throws at the first
occupied match), empty-log turn check, last-move turn check. -/
def moveIsValid (s : GameState) (m : TicTacToeMove) : Option GameErr :=
  if s.status ≠ GameStatus.IN_PROGRESS then
    some GameErr.GAME_NOT_IN_PROGRESS
  else if ∃ q ∈ s.moves, q.col = m.col ∧ q.row = m.row then
    some GameErr.BOARD_POSITION_NOT_EMPTY
  else
    match s.moves.getLast? with
    | none =>
        if m.gamePiece = GamePiece.O then some GameErr.MOVE_NOT_YOUR_TURN else none
    | some lastm =>
        if m.gamePiece = lastm.gamePiece then some GameErr.MOVE_NOT_YOUR_TURN else none

/-- One step of the loop of `_checkForHorizontalWins`: a counter per row of
the mover's pieces seen so far (the source pushes the piece onto
`ticTacToeBoard[row]`; only the length of that array is ever read, so the
counter is the length).  The length test sits outside the piece-match
branch, exactly as in the source. -/
def checkRows (p : GamePiece) : List TicTacToeMove → (GridPos → Nat) → Bool
  | [], _ => false
  | q :: rest, cnt =>
    let cnt2 : GridPos → Nat :=
      if q.gamePiece = p then fun j => if j = q.row then cnt q.row + 1 else cnt j else cnt
    if cnt2 q.row = 3 then true else checkRows p rest cnt2

/-- `_checkForHorizontalWins` applied to a move log. -/
def checkForHorizontalWins (moves : List TicTacToeMove) (p : GamePiece) : Bool :=
  checkRows p moves fun _ => 0

/-- One step of the loop of `_checkForVerticalWins`: as `checkRows` but
indexed by column. -/
def checkCols (p : GamePiece) : List TicTacToeMove → (GridPos → Nat) → Bool
  | [], _ => false
  | q :: rest, cnt =>
    let cnt2 : GridPos → Nat :=
      if q.gamePiece = p then fun j => if j = q.col then cnt q.col + 1 else cnt j else cnt
    if cnt2 q.col = 3 then true else checkCols p rest cnt2

/-- `_checkForVerticalWins` applied to a move log. -/
def checkForVerticalWins (moves : List TicTacToeMove) (p : GamePiece) : Bool :=
  checkCols p moves fun _ => 0

/-- The loop of `_checkForDiagonalWins`: `d0` and `d1` are the lengths of
`diagonals[0]` and `diagonals[1]`.  For a move of the mover's piece the
source first handles the main diagonal (`col === row`, early return at
length 3) and then the anti-diagonal (`col + row === 2`, early return at
length 3); the coordinate sum is taken over the naturals. -/
def checkDiags (p : GamePiece) : List TicTacToeMove → Nat → Nat → Bool
  | [], _, _ => false
  | q :: rest, d0, d1 =>
    if q.gamePiece = p then
      let e0 := if q.col = q.row then d0 + 1 else d0
      if q.col = q.row ∧ e0 = 3 then true
      else
        let e1 := if (q.col : Nat) + (q.row : Nat) = 2 then d1 + 1 else d1
        if (q.col : Nat) + (q.row : Nat) = 2 ∧ e1 = 3 then true
        else checkDiags p rest e0 e1
    else checkDiags p rest d0 d1

/-- `_checkForDiagonalWins` applied to a move log. -/
def checkForDiagonalWins (moves : List TicTacToeMove) (p : GamePiece) : Bool :=
  checkDiags p moves 0 0

/-- `_playerHasWon`: horizontal, then vertical, then diagonal check, over
the already-updated move log, for the mover's piece. -/
def playerHasWonBool (moves : List TicTacToeMove) (p : GamePiece) : Bool :=
  checkForHorizontalWins moves p || checkForVerticalWins moves p ||
    checkForDiagonalWins moves p

/-- The piece `applyMove` writes into the incoming move: `'X'` when the
caller's id is the id stored in `state.x`, `'O'` for every other id. -/
def pieceFor (s : GameState) (pid : String) : GamePiece :=
  if s.x = some pid then GamePiece.X else GamePiece.O

/-- `TicTacToeGame.applyMove`.  The first component is the thrown error
(`none` on success); the second is the game state after the call.  The
source overwrites `move.move.gamePiece` from the caller's id, validates
(no state is mutated before a throw), appends the move, and then runs the
termination checks on the updated log. -/
def gameApplyMove (s : GameState) (mv : GameMove) : Option GameErr × GameState :=
  let m : TicTacToeMove := { mv.move with gamePiece := pieceFor s mv.playerID }
  match moveIsValid s m with
  | some e => (some e, s)
  | none =>
    let s1 : GameState := { s with moves := s.moves ++ [m] }
    if playerHasWonBool s1.moves m.gamePiece then
      (none, { s1 with status := GameStatus.OVER, winner := some mv.playerID })
    else if s1.moves.length = 9 then
      (none, { s1 with status := GameStatus.OVER, winner := none })
    else
      (none, s1)

/-- `TicTacToeGame._join` followed by the base-class bookkeeping.
Modelled from the spec: the abstract `Game.join` wrapper (absent from the
sources) calls `_join` and, when it does not throw, appends the joiner to
the participant list. -/
def gameJoin (s : GameState) (pid : String) : Option GameErr × GameState :=
  if pid ∈ s.players then
    (some GameErr.PLAYER_ALREADY_IN_GAME, s)
  else if s.players.length = 2 then
    (some GameErr.GAME_FULL, s)
  else
    let s1 :=
      if s.players.length = 0 then { s with x := some pid }
      else if s.players.length = 1 then
        { s with o := some pid, status := GameStatus.IN_PROGRESS }
      else s
    (none, { s1 with players := s1.players ++ [pid] })

/-- `TicTacToeGame._leave` followed by the base-class bookkeeping.
Modelled from the spec: the abstract `Game.leave` wrapper (absent from the
sources) calls `_leave` and, when it does not throw, removes the leaver
from the participant list.  `_leave` itself reads `_players` with the
leaver still present: winner on forfeit is `_players[1]` when the leaver
is `_players[0]` and `_players[0]` otherwise. -/
def gameLeave (s : GameState) (pid : String) : Option GameErr × GameState :=
  if pid ∉ s.players then
    (some GameErr.PLAYER_NOT_IN_GAME, s)
  else
    let s1 :=
      if s.status = GameStatus.IN_PROGRESS then
        { s with status := GameStatus.OVER,
                 winner := if s.players[0]? = some pid then s.players[1]? else s.players[0]? }
      else
        { s with status := GameStatus.WAITING_TO_START }
    (none, { s1 with players := s1.players.filter (· ≠ pid) })

/-- The three engine operations a caller can attempt on a game. -/
inductive GameOp where
  | join (pid : String)
  | leave (pid : String)
  | move (mv : GameMove)
deriving DecidableEq, Repr

/-- Run one operation, returning the thrown error (if any) and the state
after the call. -/
def gameOpRun (s : GameState) : GameOp → Option GameErr × GameState
  | GameOp.join pid => gameJoin s pid
  | GameOp.leave pid => gameLeave s pid
  | GameOp.move mv => gameApplyMove s mv

/-- The state after one operation (whether or not it threw). -/
def gameStep (s : GameState) (op : GameOp) : GameState :=
  (gameOpRun s op).2

/-- The state reached from a fresh game by a sequence of operations. -/
def runGame (ops : List GameOp) : GameState :=
  ops.foldl gameStep initialGame

/-- No two recorded moves share a `(row, col)` cell. -/
def pairsNodup (moves : List TicTacToeMove) : Prop :=
  (moves.map fun m => (m.row, m.col)).Nodup

instance (moves : List TicTacToeMove) : Decidable (pairsNodup moves) := by
  unfold pairsNodup
  infer_instance

/-- Spec-side predicate: the cell `(r, c)` holds a move of piece `p`. -/
def cellTaken (moves : List TicTacToeMove) (p : GamePiece) (r c : GridPos) : Prop :=
  ∃ m ∈ moves, m.gamePiece = p ∧ m.row = r ∧ m.col = c

instance (moves : List TicTacToeMove) (p : GamePiece) (r c : GridPos) :
    Decidable (cellTaken moves p r c) := by
  unfold cellTaken
  infer_instance

/-- The anti-diagonal cell in row `i`: column `2 - i`. -/
def antiCol (i : GridPos) : GridPos :=
  ⟨2 - (i : Nat), by omega⟩

/-- Spec-side predicate, following the spec's words: some row, some column,
or one of the two diagonals holds three moves of piece `p`. -/
def lineWin (moves : List TicTacToeMove) (p : GamePiece) : Prop :=
  (∃ r : GridPos, ∀ c : GridPos, cellTaken moves p r c) ∨
  (∃ c : GridPos, ∀ r : GridPos, cellTaken moves p r c) ∨
  (∀ i : GridPos, cellTaken moves p i i) ∨
  (∀ i : GridPos, cellTaken moves p i (antiCol i))

instance (moves : List TicTacToeMove) (p : GamePiece) : Decidable (lineWin moves p) := by
  unfold lineWin
  infer_instance

/-- The number of moves of piece `p` recorded in row `r`. -/
def pCountRow (p : GamePiece) (r : GridPos) (moves : List TicTacToeMove) : Nat :=
  moves.countP fun m => decide (m.gamePiece = p ∧ m.row = r)

/-- The number of moves of piece `p` recorded in column `c`. -/
def pCountCol (p : GamePiece) (c : GridPos) (moves : List TicTacToeMove) : Nat :=
  moves.countP fun m => decide (m.gamePiece = p ∧ m.col = c)

/-- The number of moves of piece `p` recorded on the main diagonal. -/
def pCountDiag (p : GamePiece) (moves : List TicTacToeMove) : Nat :=
  moves.countP fun m => decide (m.gamePiece = p ∧ m.col = m.row)

/-- The number of moves of piece `p` recorded on the anti-diagonal. -/
def pCountAnti (p : GamePiece) (moves : List TicTacToeMove) : Nat :=
  moves.countP fun m => decide (m.gamePiece = p ∧ (m.col : Nat) + (m.row : Nat) = 2)

/-- The mark opposite a mark. -/
def oppositeMark : GamePiece → GamePiece
  | GamePiece.X => GamePiece.O
  | GamePiece.O => GamePiece.X

/-- The mark whose turn it is, following the spec's words: an empty log
means mark `X` moves; otherwise the mark opposite the last recorded move. -/
def turnMark (moves : List TicTacToeMove) : GamePiece :=
  match moves.getLast? with
  | none => GamePiece.X
  | some lastm => oppositeMark lastm.gamePiece

/-- The validation outcome as the claim states it, following the spec's
words: not in progress, else occupied target cell, else the deduced mark
is not the mark whose turn it is, else accepted. -/
def specValidationOutcome (s : GameState) (pid : String) (m : TicTacToeMove) :
    Option GameErr :=
  if s.status ≠ GameStatus.IN_PROGRESS then
    some GameErr.GAME_NOT_IN_PROGRESS
  else if ∃ q ∈ s.moves, q.row = m.row ∧ q.col = m.col then
    some GameErr.BOARD_POSITION_NOT_EMPTY
  else if pieceFor s pid ≠ turnMark s.moves then
    some GameErr.MOVE_NOT_YOUR_TURN
  else
    none

/-! ### The area command router (`TicTacToeGameArea.ts`) -/

/-- The slice of `Player` the router reads: `id` and `userName`. -/
structure PlayerInfo where
  id : String
  userName : String
deriving DecidableEq, Repr

/-- `GameResult`: the game id and the score map.  The source builds the
scores as a two-key object literal keyed by user name; it is modelled as
the list of `(userName, score)` entries in literal order (for distinct
user names this is exactly the object's two entries). -/
structure GameResult where
  gameID : String
  scores : List (String × Nat)
deriving DecidableEq, Repr

/-- The state of a `TicTacToeGameArea`.
Modelled from the spec: the `GameArea` base class (absent from the
sources) holds the current game instance and its id (`this._game`,
`this.game.id`), the append-only outcome ledger (`this.history`) and the
area's occupant list (`this.occupants`); `freshGameId` is the id a newly
constructed game would receive. -/
structure AreaState where
  game : Option GameState
  gameId : String
  freshGameId : String
  history : List GameResult
  occupants : List PlayerInfo
deriving DecidableEq, Repr

/-- `this.occupants[i]`.  The source indexes without a bounds check; the
out-of-range case (which would be a runtime fault in the source) is mapped
to a dummy occupant and is excluded by hypothesis in the theorems. -/
def occAt (a : AreaState) (i : Nat) : PlayerInfo :=
  a.occupants.getD i ⟨"", ""⟩

/-- `TicTacToeGameArea._handleJoinCommand`: creates a fresh game when none
exists, then joins; the freshly created instance stays installed even when
the join throws. -/
def handleJoinCommand (a : AreaState) (p : PlayerInfo) : Option GameErr × AreaState :=
  let g := a.game.getD initialGame
  let gid := match a.game with
    | none => a.freshGameId
    | some _ => a.gameId
  match gameJoin g p.id with
  | (some e, g2) => (some e, { a with game := some g2, gameId := gid })
  | (none, g2) => (none, { a with game := some g2, gameId := gid })

/-- `TicTacToeGameArea._handleLeaveCommand`.  After a successful leave, if
the game's status is `OVER` a result is pushed scoring 1 for the first of
`occupants[0]`, `occupants[1]` whose id equals the winner (eagerly
`occupants[1]` when `occupants[0]` does not match) and 0 for the other. -/
def handleLeaveCommand (a : AreaState) (cmdGameID : String) (p : PlayerInfo) :
    Option GameErr × AreaState :=
  match a.game with
  | none => (some GameErr.GAME_NOT_IN_PROGRESS, a)
  | some g =>
    if cmdGameID ≠ a.gameId then (some GameErr.GAME_ID_MISSMATCH, a)
    else
      match gameLeave g p.id with
      | (some e, g2) => (some e, { a with game := some g2 })
      | (none, g2) =>
        if g2.status = GameStatus.OVER then
          let win := if some (occAt a 0).id = g2.winner then occAt a 0 else occAt a 1
          let lose := if some (occAt a 0).id ≠ g2.winner then occAt a 0 else occAt a 1
          (none, { a with game := some g2,
                          history := a.history ++
                            [⟨a.gameId, [(win.userName, 1), (lose.userName, 0)]⟩] })
        else (none, { a with game := some g2 })

/-- `TicTacToeGameArea._handleMoveCommand`.  Builds the engine move from
the caller's id, applies it, and on a resulting `OVER` status pushes a
result: mover scored 1 and the first occupant with a different user name
scored 0 when a winner is set, both of the first two occupants scored 0 on
a tie. -/
def handleMoveCommand (a : AreaState) (cmdGameID : String) (p : PlayerInfo)
    (m : TicTacToeMove) : Option GameErr × AreaState :=
  match a.game with
  | none => (some GameErr.GAME_NOT_IN_PROGRESS, a)
  | some g =>
    if a.gameId ≠ cmdGameID then (some GameErr.GAME_ID_MISSMATCH, a)
    else
      match gameApplyMove g ⟨p.id, cmdGameID, m⟩ with
      | (some e, g2) => (some e, { a with game := some g2 })
      | (none, g2) =>
        if g2.status = GameStatus.OVER then
          if g2.winner ≠ none then
            let lose := if (occAt a 0).userName ≠ p.userName then occAt a 0 else occAt a 1
            (none, { a with game := some g2,
                            history := a.history ++
                              [⟨a.gameId, [(p.userName, 1), (lose.userName, 0)]⟩] })
          else
            (none, { a with game := some g2,
                            history := a.history ++
                              [⟨a.gameId,
                                [((occAt a 0).userName, 0), ((occAt a 1).userName, 0)]⟩] })
        else (none, { a with game := some g2 })

/-- The commands `handleCommand` can receive; `other` stands for every
command kind besides `JoinGame`, `LeaveGame` and `GameMove`. -/
inductive Command where
  | join
  | leave (gameID : String)
  | move (gameID : String) (move : TicTacToeMove)
  | other
deriving DecidableEq, Repr

/-- `TicTacToeGameArea.handleCommand`: dispatches the three supported
command kinds and throws `INVALID_COMMAND_MESSAGE` on every other kind. -/
def handleCommand (a : AreaState) (c : Command) (p : PlayerInfo) :
    Option GameErr × AreaState :=
  match c with
  | Command.join => handleJoinCommand a p
  | Command.leave gid => handleLeaveCommand a gid p
  | Command.move gid m => handleMoveCommand a gid p m
  | Command.other => (some GameErr.INVALID_COMMAND, a)

/-! ### Concrete fixtures used by the closed examples below -/

/-- A move operation of player `pid` at `(r, c)`; the piece written here is
ignored (and overwritten) by `applyMove`. -/
def fixMove (pid : String) (r c : GridPos) : GameOp :=
  GameOp.move ⟨pid, "G1", ⟨r, c, GamePiece.X⟩⟩

/-- p1 and p2 join and play; p1 completes column 0 with the fifth move. -/
def fixWinOps : List GameOp :=
  [GameOp.join "p1", GameOp.join "p2", fixMove "p1" 0 0, fixMove "p2" 2 2,
   fixMove "p1" 1 0, fixMove "p2" 2 1, fixMove "p1" 2 0]

/-- `fixWinOps` without its final, winning move. -/
def fixSetupOps : List GameOp :=
  [GameOp.join "p1", GameOp.join "p2", fixMove "p1" 0 0, fixMove "p2" 2 2,
   fixMove "p1" 1 0, fixMove "p2" 2 1]

/-- The winning fifth move of `fixWinOps`. -/
def fixWinMove : GameMove := ⟨"p1", "G1", ⟨2, 0, GamePiece.X⟩⟩

/-- A game in which the foreign id p9 (in neither seat) is one O move away
from completing row 1; it is O's turn. -/
def fixForeignOps : List GameOp :=
  [GameOp.join "p1", GameOp.join "p2", fixMove "p1" 0 0, fixMove "p2" 1 0,
   fixMove "p1" 0 1, fixMove "p9" 1 1, fixMove "p1" 2 2]

/-- An area with no game installed. -/
def fixEmptyArea : AreaState :=
  { game := none, gameId := "G1", freshGameId := "G1", history := [], occupants := [] }

/-- Occupant fixture: the id p1 with user name Alice. -/
def fixAlice : PlayerInfo := ⟨"p1", "Alice"⟩

/-- Occupant fixture: the id p2 with user name Bob. -/
def fixBob : PlayerInfo := ⟨"p2", "Bob"⟩

/-- An area hosting a freshly started game between Alice (p1, mark X) and
Bob (p2, mark O). -/
def fixArea : AreaState :=
  { game := some (runGame [GameOp.join "p1", GameOp.join "p2"]),
    gameId := "G1", freshGameId := "G2", history := [],
    occupants := [fixAlice, fixBob] }

/-! ### Helper lemmas: the win checks count pieces per line -/

theorem checkRows_cons (p : GamePiece) (q : TicTacToeMove) (rest : List TicTacToeMove)
    (cnt : GridPos → Nat) :
    checkRows p (q :: rest) cnt =
      if q.gamePiece = p then
        (if cnt q.row + 1 = 3 then true
         else checkRows p rest fun j => if j = q.row then cnt q.row + 1 else cnt j)
      else
        (if cnt q.row = 3 then true else checkRows p rest cnt) := by
  by_cases hp : q.gamePiece = p <;> simp [checkRows, hp]

theorem checkCols_cons (p : GamePiece) (q : TicTacToeMove) (rest : List TicTacToeMove)
    (cnt : GridPos → Nat) :
    checkCols p (q :: rest) cnt =
      if q.gamePiece = p then
        (if cnt q.col + 1 = 3 then true
         else checkCols p rest fun j => if j = q.col then cnt q.col + 1 else cnt j)
      else
        (if cnt q.col = 3 then true else checkCols p rest cnt) := by
  by_cases hp : q.gamePiece = p <;> simp [checkCols, hp]

theorem checkRows_iff (p : GamePiece) (moves : List TicTacToeMove) :
    ∀ cnt : GridPos → Nat, (∀ r, cnt r < 3) →
      (checkRows p moves cnt = true ↔ ∃ r : GridPos, 3 ≤ cnt r + pCountRow p r moves) := by
  induction moves with
  | nil =>
    intro cnt h
    simp only [checkRows, pCountRow, List.countP_nil, Nat.add_zero]
    constructor
    · intro hfalse
      exact absurd hfalse (by simp)
    · rintro ⟨r, hr⟩
      exact absurd hr (by have hh := h r; omega)
  | cons q rest ih =>
    intro cnt h
    have hcountP : ∀ r : GridPos, pCountRow p r (q :: rest) =
        pCountRow p r rest + if q.gamePiece = p ∧ q.row = r then 1 else 0 := by
      intro r
      simp [pCountRow, List.countP_cons]
    rw [checkRows_cons]
    by_cases hp : q.gamePiece = p
    · rw [if_pos hp]
      by_cases h3 : cnt q.row + 1 = 3
      · rw [if_pos h3]
        simp only [true_iff]
        refine ⟨q.row, ?_⟩
        rw [hcountP q.row, if_pos ⟨hp, rfl⟩]
        omega
      · rw [if_neg h3]
        have hb : ∀ r : GridPos, (fun j => if j = q.row then cnt q.row + 1 else cnt j) r < 3 := by
          intro r
          by_cases hr : r = q.row
          · simp only [if_pos hr]
            have := h q.row
            omega
          · simp only [if_neg hr]
            exact h r
        rw [ih _ hb]
        refine exists_congr fun r => ?_
        rw [hcountP r]
        by_cases hr : r = q.row
        · subst hr
          simp only [hp, true_and, and_self, if_true, eq_self_iff_true, ite_true]
          omega
        · rw [if_neg hr, if_neg (by rintro ⟨-, hrow⟩; exact hr hrow.symm)]
          omega
    · rw [if_neg hp, if_neg (by have := h q.row; omega), ih _ h]
      refine exists_congr fun r => ?_
      rw [hcountP r, if_neg (by rintro ⟨hpp, -⟩; exact hp hpp)]
      omega

theorem checkCols_iff (p : GamePiece) (moves : List TicTacToeMove) :
    ∀ cnt : GridPos → Nat, (∀ c, cnt c < 3) →
      (checkCols p moves cnt = true ↔ ∃ c : GridPos, 3 ≤ cnt c + pCountCol p c moves) := by
  induction moves with
  | nil =>
    intro cnt h
    simp only [checkCols, pCountCol, List.countP_nil, Nat.add_zero]
    constructor
    · intro hfalse
      exact absurd hfalse (by simp)
    · rintro ⟨c, hc⟩
      exact absurd hc (by have hh := h c; omega)
  | cons q rest ih =>
    intro cnt h
    have hcountP : ∀ c : GridPos, pCountCol p c (q :: rest) =
        pCountCol p c rest + if q.gamePiece = p ∧ q.col = c then 1 else 0 := by
      intro c
      simp [pCountCol, List.countP_cons]
    rw [checkCols_cons]
    by_cases hp : q.gamePiece = p
    · rw [if_pos hp]
      by_cases h3 : cnt q.col + 1 = 3
      · rw [if_pos h3]
        simp only [true_iff]
        refine ⟨q.col, ?_⟩
        rw [hcountP q.col, if_pos ⟨hp, rfl⟩]
        omega
      · rw [if_neg h3]
        have hb : ∀ c : GridPos, (fun j => if j = q.col then cnt q.col + 1 else cnt j) c < 3 := by
          intro c
          by_cases hc : c = q.col
          · simp only [if_pos hc]
            have := h q.col
            omega
          · simp only [if_neg hc]
            exact h c
        rw [ih _ hb]
        refine exists_congr fun c => ?_
        rw [hcountP c]
        by_cases hc : c = q.col
        · subst hc
          simp only [hp, true_and, and_self, if_true, eq_self_iff_true, ite_true]
          omega
        · rw [if_neg hc, if_neg (by rintro ⟨-, hcol⟩; exact hc hcol.symm)]
          omega
    · rw [if_neg hp, if_neg (by have := h q.col; omega), ih _ h]
      refine exists_congr fun c => ?_
      rw [hcountP c, if_neg (by rintro ⟨hpp, -⟩; exact hp hpp)]
      omega

theorem checkDiags_cons (p : GamePiece) (q : TicTacToeMove) (rest : List TicTacToeMove)
    (d0 d1 : Nat) :
    checkDiags p (q :: rest) d0 d1 =
      if q.gamePiece = p then
        if q.col = q.row ∧ d0 + 1 = 3 then true
        else if (q.col : Nat) + (q.row : Nat) = 2 ∧ d1 + 1 = 3 then true
        else checkDiags p rest (if q.col = q.row then d0 + 1 else d0)
          (if (q.col : Nat) + (q.row : Nat) = 2 then d1 + 1 else d1)
      else checkDiags p rest d0 d1 := by
  by_cases hp : q.gamePiece = p <;> by_cases hm : q.col = q.row <;>
    by_cases hm2 : (q.col : Nat) + (q.row : Nat) = 2 <;>
    try rw [hm] at hm2
  all_goals simp [checkDiags, hp, hm, hm2]

theorem checkDiags_iff (p : GamePiece) (moves : List TicTacToeMove) :
    ∀ d0 d1 : Nat, d0 < 3 → d1 < 3 →
      (checkDiags p moves d0 d1 = true ↔
        3 ≤ d0 + pCountDiag p moves ∨ 3 ≤ d1 + pCountAnti p moves) := by
  induction moves with
  | nil =>
    intro d0 d1 h0 h1
    simp only [checkDiags, pCountDiag, pCountAnti, List.countP_nil, Nat.add_zero]
    constructor
    · intro hfalse
      exact absurd hfalse (by simp)
    · rintro (hc | hc)
      · exact absurd hc (by omega)
      · exact absurd hc (by omega)
  | cons q rest ih =>
    intro d0 d1 h0 h1
    have hD : pCountDiag p (q :: rest) =
        pCountDiag p rest + if q.gamePiece = p ∧ q.col = q.row then 1 else 0 := by
      simp [pCountDiag, List.countP_cons]
    have hA : pCountAnti p (q :: rest) = pCountAnti p rest +
        if q.gamePiece = p ∧ (q.col : Nat) + (q.row : Nat) = 2 then 1 else 0 := by
      simp [pCountAnti, List.countP_cons]
    rw [checkDiags_cons, hD, hA]
    by_cases hp : q.gamePiece = p
    · rw [if_pos hp]
      by_cases hm : q.col = q.row
      · by_cases h3 : d0 + 1 = 3
        · have hc1 : q.col = q.row ∧ d0 + 1 = 3 := ⟨hm, h3⟩
          have hc2 : q.gamePiece = p ∧ q.col = q.row := ⟨hp, hm⟩
          rw [if_pos hc1, if_pos hc2]
          simp only [true_iff]
          left
          omega
        · have hn1 : ¬(q.col = q.row ∧ d0 + 1 = 3) := fun hand => h3 hand.2
          have hc2 : q.gamePiece = p ∧ q.col = q.row := ⟨hp, hm⟩
          rw [if_neg hn1, if_pos hm, if_pos hc2]
          by_cases hm2 : (q.col : Nat) + (q.row : Nat) = 2
          · have hc3 : q.gamePiece = p ∧ (q.col : Nat) + (q.row : Nat) = 2 := ⟨hp, hm2⟩
            by_cases h3b : d1 + 1 = 3
            · have hc4 : (q.col : Nat) + (q.row : Nat) = 2 ∧ d1 + 1 = 3 := ⟨hm2, h3b⟩
              rw [if_pos hc4, if_pos hc3]
              simp only [true_iff]
              right
              omega
            · have hn4 : ¬((q.col : Nat) + (q.row : Nat) = 2 ∧ d1 + 1 = 3) :=
                fun hand => h3b hand.2
              rw [if_neg hn4, if_pos hm2, if_pos hc3,
                  ih (d0 + 1) (d1 + 1) (by omega) (by omega)]
              omega
          · have hn4 : ¬((q.col : Nat) + (q.row : Nat) = 2 ∧ d1 + 1 = 3) :=
              fun hand => hm2 hand.1
            have hn3 : ¬(q.gamePiece = p ∧ (q.col : Nat) + (q.row : Nat) = 2) :=
              fun hand => hm2 hand.2
            rw [if_neg hn4, if_neg hm2, if_neg hn3, ih (d0 + 1) d1 (by omega) h1]
            omega
      · have hn1 : ¬(q.col = q.row ∧ d0 + 1 = 3) := fun hand => hm hand.1
        have hn2 : ¬(q.gamePiece = p ∧ q.col = q.row) := fun hand => hm hand.2
        rw [if_neg hn1, if_neg hm, if_neg hn2]
        by_cases hm2 : (q.col : Nat) + (q.row : Nat) = 2
        · have hc3 : q.gamePiece = p ∧ (q.col : Nat) + (q.row : Nat) = 2 := ⟨hp, hm2⟩
          by_cases h3b : d1 + 1 = 3
          · have hc4 : (q.col : Nat) + (q.row : Nat) = 2 ∧ d1 + 1 = 3 := ⟨hm2, h3b⟩
            rw [if_pos hc4, if_pos hc3]
            simp only [true_iff]
            right
            omega
          · have hn4 : ¬((q.col : Nat) + (q.row : Nat) = 2 ∧ d1 + 1 = 3) :=
              fun hand => h3b hand.2
            rw [if_neg hn4, if_pos hm2, if_pos hc3, ih d0 (d1 + 1) h0 (by omega)]
            omega
        · have hn4 : ¬((q.col : Nat) + (q.row : Nat) = 2 ∧ d1 + 1 = 3) :=
            fun hand => hm2 hand.1
          have hn3 : ¬(q.gamePiece = p ∧ (q.col : Nat) + (q.row : Nat) = 2) :=
            fun hand => hm2 hand.2
          rw [if_neg hn4, if_neg hm2, if_neg hn3, ih d0 d1 h0 h1]
          omega
    · have hn2 : ¬(q.gamePiece = p ∧ q.col = q.row) := fun hand => hp hand.1
      have hn3 : ¬(q.gamePiece = p ∧ (q.col : Nat) + (q.row : Nat) = 2) :=
        fun hand => hp hand.1
      rw [if_neg hp, if_neg hn2, if_neg hn3, ih d0 d1 h0 h1]
      omega

/-! ### Helper lemmas: counts versus cells, for duplicate-free logs -/

theorem moveFieldsEq {a b : TicTacToeMove} (h1 : a.row = b.row) (h2 : a.col = b.col)
    (h3 : a.gamePiece = b.gamePiece) : a = b := by
  cases a
  cases b
  simp_all

theorem mem_of_nodup_len3 (l : List GridPos) (hnd : l.Nodup) :
    3 ≤ l.length ↔ ∀ c : GridPos, c ∈ l := by
  constructor
  · intro h3 c
    have hcard : l.toFinset.card = l.length := List.toFinset_card_of_nodup hnd
    have hle : l.toFinset.card ≤ 3 := by
      have hc := Finset.card_le_univ l.toFinset
      simpa using hc
    have huniv : l.toFinset = Finset.univ := by
      apply Finset.eq_univ_of_card
      simp only [Fintype.card_fin]
      omega
    rw [← List.mem_toFinset, huniv]
    exact Finset.mem_univ c
  · intro hall
    have hsub : Finset.univ ⊆ l.toFinset := fun c _ => List.mem_toFinset.2 (hall c)
    have hcards := Finset.card_le_card hsub
    have hcard : l.toFinset.card = l.length := List.toFinset_card_of_nodup hnd
    have hcl : l.toFinset.card ≤ l.length := le_of_eq hcard
    simp only [Finset.card_univ, Fintype.card_fin] at hcards
    omega

theorem filter_nodup_of_pairs {moves : List TicTacToeMove} (h : pairsNodup moves)
    (f : TicTacToeMove → Bool) : (moves.filter f).Nodup := by
  have h2 : (moves.map fun m => (m.row, m.col)).Nodup := h
  have hsub : (moves.filter f).Sublist moves := List.filter_sublist moves
  exact ((hsub.map fun m => (m.row, m.col)).nodup h2).of_map _

theorem countRow_cells (p : GamePiece) (r : GridPos) (moves : List TicTacToeMove)
    (h : pairsNodup moves) :
    3 ≤ pCountRow p r moves ↔ ∀ c : GridPos, cellTaken moves p r c := by
  have hmember : ∀ c : GridPos,
      (c ∈ (moves.filter fun m => decide (m.gamePiece = p ∧ m.row = r)).map fun m => m.col) ↔
        cellTaken moves p r c := by
    intro c
    simp only [List.mem_map, List.mem_filter, decide_eq_true_eq, cellTaken]
    constructor
    · rintro ⟨m, ⟨hmem, hpp, hrow⟩, hcol⟩
      exact ⟨m, hmem, hpp, hrow, hcol⟩
    · rintro ⟨m, hmem, hpp, hrow, hcol⟩
      exact ⟨m, ⟨hmem, hpp, hrow⟩, hcol⟩
  have hlen : pCountRow p r moves =
      ((moves.filter fun m => decide (m.gamePiece = p ∧ m.row = r)).map fun m => m.col).length := by
    rw [List.length_map, pCountRow, List.countP_eq_length_filter]
  have hnd : ((moves.filter fun m => decide (m.gamePiece = p ∧ m.row = r)).map
      fun m => m.col).Nodup := by
    refine (filter_nodup_of_pairs h _).map_on ?_
    intro a ha b hb hab
    have ha2 := (List.mem_filter.1 ha).2
    have hb2 := (List.mem_filter.1 hb).2
    simp only [decide_eq_true_eq] at ha2 hb2
    exact moveFieldsEq (ha2.2.trans hb2.2.symm) hab (ha2.1.trans hb2.1.symm)
  rw [hlen, mem_of_nodup_len3 _ hnd]
  exact forall_congr' hmember

theorem countCol_cells (p : GamePiece) (c : GridPos) (moves : List TicTacToeMove)
    (h : pairsNodup moves) :
    3 ≤ pCountCol p c moves ↔ ∀ r : GridPos, cellTaken moves p r c := by
  have hmember : ∀ r : GridPos,
      (r ∈ (moves.filter fun m => decide (m.gamePiece = p ∧ m.col = c)).map fun m => m.row) ↔
        cellTaken moves p r c := by
    intro r
    simp only [List.mem_map, List.mem_filter, decide_eq_true_eq, cellTaken]
    constructor
    · rintro ⟨m, ⟨hmem, hpp, hcol⟩, hrow⟩
      exact ⟨m, hmem, hpp, hrow, hcol⟩
    · rintro ⟨m, hmem, hpp, hrow, hcol⟩
      exact ⟨m, ⟨hmem, hpp, hcol⟩, hrow⟩
  have hlen : pCountCol p c moves =
      ((moves.filter fun m => decide (m.gamePiece = p ∧ m.col = c)).map fun m => m.row).length := by
    rw [List.length_map, pCountCol, List.countP_eq_length_filter]
  have hnd : ((moves.filter fun m => decide (m.gamePiece = p ∧ m.col = c)).map
      fun m => m.row).Nodup := by
    refine (filter_nodup_of_pairs h _).map_on ?_
    intro a ha b hb hab
    have ha2 := (List.mem_filter.1 ha).2
    have hb2 := (List.mem_filter.1 hb).2
    simp only [decide_eq_true_eq] at ha2 hb2
    exact moveFieldsEq hab (ha2.2.trans hb2.2.symm) (ha2.1.trans hb2.1.symm)
  rw [hlen, mem_of_nodup_len3 _ hnd]
  exact forall_congr' hmember

theorem countDiag_cells (p : GamePiece) (moves : List TicTacToeMove)
    (h : pairsNodup moves) :
    3 ≤ pCountDiag p moves ↔ ∀ i : GridPos, cellTaken moves p i i := by
  have hmember : ∀ i : GridPos,
      (i ∈ (moves.filter fun m => decide (m.gamePiece = p ∧ m.col = m.row)).map
          fun m => m.row) ↔ cellTaken moves p i i := by
    intro i
    simp only [List.mem_map, List.mem_filter, decide_eq_true_eq, cellTaken]
    constructor
    · rintro ⟨m, ⟨hmem, hpp, hdg⟩, hrow⟩
      exact ⟨m, hmem, hpp, hrow, hdg.trans hrow⟩
    · rintro ⟨m, hmem, hpp, hrow, hcol⟩
      exact ⟨m, ⟨hmem, hpp, hcol.trans hrow.symm⟩, hrow⟩
  have hlen : pCountDiag p moves =
      ((moves.filter fun m => decide (m.gamePiece = p ∧ m.col = m.row)).map
        fun m => m.row).length := by
    rw [List.length_map, pCountDiag, List.countP_eq_length_filter]
  have hnd : ((moves.filter fun m => decide (m.gamePiece = p ∧ m.col = m.row)).map
      fun m => m.row).Nodup := by
    refine (filter_nodup_of_pairs h _).map_on ?_
    intro a ha b hb hab
    have ha2 := (List.mem_filter.1 ha).2
    have hb2 := (List.mem_filter.1 hb).2
    simp only [decide_eq_true_eq] at ha2 hb2
    exact moveFieldsEq hab (ha2.2.trans (hab.trans hb2.2.symm.symm.symm))
      (ha2.1.trans hb2.1.symm)
  rw [hlen, mem_of_nodup_len3 _ hnd]
  exact forall_congr' hmember

theorem countAnti_cells (p : GamePiece) (moves : List TicTacToeMove)
    (h : pairsNodup moves) :
    3 ≤ pCountAnti p moves ↔ ∀ i : GridPos, cellTaken moves p i (antiCol i) := by
  have hmember : ∀ i : GridPos,
      (i ∈ (moves.filter fun m =>
          decide (m.gamePiece = p ∧ (m.col : Nat) + (m.row : Nat) = 2)).map
          fun m => m.row) ↔ cellTaken moves p i (antiCol i) := by
    intro i
    simp only [List.mem_map, List.mem_filter, decide_eq_true_eq, cellTaken]
    constructor
    · rintro ⟨m, ⟨hmem, hpp, hsum⟩, hrow⟩
      refine ⟨m, hmem, hpp, hrow, ?_⟩
      have hrv : (m.row : Nat) = (i : Nat) := congrArg Fin.val hrow
      apply Fin.ext
      show (m.col : Nat) = 2 - (i : Nat)
      omega
    · rintro ⟨m, hmem, hpp, hrow, hcol⟩
      refine ⟨m, ⟨hmem, hpp, ?_⟩, hrow⟩
      have hrv : (m.row : Nat) = (i : Nat) := congrArg Fin.val hrow
      have hcv : (m.col : Nat) = 2 - (i : Nat) := congrArg Fin.val hcol
      have hlt : (i : Nat) < 3 := i.isLt
      omega
  have hlen : pCountAnti p moves =
      ((moves.filter fun m =>
        decide (m.gamePiece = p ∧ (m.col : Nat) + (m.row : Nat) = 2)).map
        fun m => m.row).length := by
    rw [List.length_map, pCountAnti, List.countP_eq_length_filter]
  have hnd : ((moves.filter fun m =>
      decide (m.gamePiece = p ∧ (m.col : Nat) + (m.row : Nat) = 2)).map
      fun m => m.row).Nodup := by
    refine (filter_nodup_of_pairs h _).map_on ?_
    intro a ha b hb hab
    have ha2 := (List.mem_filter.1 ha).2
    have hb2 := (List.mem_filter.1 hb).2
    simp only [decide_eq_true_eq] at ha2 hb2
    have hrv : (a.row : Nat) = (b.row : Nat) := congrArg Fin.val hab
    have hcv : (a.col : Nat) = (b.col : Nat) := by omega
    exact moveFieldsEq hab (Fin.ext hcv) (ha2.1.trans hb2.1.symm)
  rw [hlen, mem_of_nodup_len3 _ hnd]
  exact forall_congr' hmember

theorem playerHasWon_iff (moves : List TicTacToeMove) (p : GamePiece)
    (h : pairsNodup moves) :
    playerHasWonBool moves p = true ↔ lineWin moves p := by
  unfold playerHasWonBool checkForHorizontalWins checkForVerticalWins checkForDiagonalWins
  rw [Bool.or_eq_true, Bool.or_eq_true]
  rw [checkRows_iff p moves _ (by intro r; omega),
      checkCols_iff p moves _ (by intro c; omega),
      checkDiags_iff p moves 0 0 (by omega) (by omega)]
  simp only [Nat.zero_add]
  unfold lineWin
  constructor
  · rintro ((⟨r, hr⟩ | ⟨c, hc⟩) | (hd | hd))
    · exact Or.inl ⟨r, fun c => (countRow_cells p r moves h).1 hr c⟩
    · exact Or.inr (Or.inl ⟨c, fun r => (countCol_cells p c moves h).1 hc r⟩)
    · exact Or.inr (Or.inr (Or.inl fun i => (countDiag_cells p moves h).1 hd i))
    · exact Or.inr (Or.inr (Or.inr fun i => (countAnti_cells p moves h).1 hd i))
  · rintro (⟨r, hr⟩ | ⟨c, hc⟩ | hd | hd)
    · exact Or.inl (Or.inl ⟨r, (countRow_cells p r moves h).2 hr⟩)
    · exact Or.inl (Or.inr ⟨c, (countCol_cells p c moves h).2 hc⟩)
    · exact Or.inr (Or.inl ((countDiag_cells p moves h).2 hd))
    · exact Or.inr (Or.inr ((countAnti_cells p moves h).2 hd))

/-! ### Bridge lemmas about the engine operations -/

theorem gameApplyMove_fst (s : GameState) (mv : GameMove) :
    (gameApplyMove s mv).1 =
      moveIsValid s { mv.move with gamePiece := pieceFor s mv.playerID } := by
  unfold gameApplyMove
  cases hv : moveIsValid s { mv.move with gamePiece := pieceFor s mv.playerID } with
  | none =>
    simp only [hv]
    split
    · rfl
    · split <;> rfl
  | some e => simp only [hv]

theorem moveIsValid_none_status (s : GameState) (m : TicTacToeMove)
    (h : moveIsValid s m = none) : s.status = GameStatus.IN_PROGRESS := by
  unfold moveIsValid at h
  by_cases h1 : s.status ≠ GameStatus.IN_PROGRESS
  · rw [if_pos h1] at h
    exact Option.noConfusion h
  · exact not_not.1 h1

theorem moveIsValid_none_fresh (s : GameState) (m : TicTacToeMove)
    (h : moveIsValid s m = none) :
    ¬ ∃ q ∈ s.moves, q.col = m.col ∧ q.row = m.row := by
  unfold moveIsValid at h
  intro hocc
  by_cases h1 : s.status ≠ GameStatus.IN_PROGRESS
  · rw [if_pos h1] at h
    exact Option.noConfusion h
  · rw [if_neg h1, if_pos hocc] at h
    exact Option.noConfusion h

theorem gameJoin_err_state (s : GameState) (pid : String) (e : GameErr)
    (h : (gameJoin s pid).1 = some e) : (gameJoin s pid).2 = s := by
  unfold gameJoin at h ⊢
  by_cases h1 : pid ∈ s.players
  · rw [if_pos h1]
  · rw [if_neg h1] at h ⊢
    by_cases h2 : s.players.length = 2
    · rw [if_pos h2]
    · rw [if_neg h2] at h
      simp at h

theorem gameLeave_err_state (s : GameState) (pid : String) (e : GameErr)
    (h : (gameLeave s pid).1 = some e) : (gameLeave s pid).2 = s := by
  unfold gameLeave at h ⊢
  by_cases h1 : pid ∉ s.players
  · rw [if_pos h1]
  · rw [if_neg h1] at h
    simp at h

theorem gameApplyMove_err_state (s : GameState) (mv : GameMove) (e : GameErr)
    (h : (gameApplyMove s mv).1 = some e) : (gameApplyMove s mv).2 = s := by
  unfold gameApplyMove at h ⊢
  cases hv : moveIsValid s { mv.move with gamePiece := pieceFor s mv.playerID } with
  | some e2 => simp only [hv]
  | none =>
    simp only [hv] at h
    exfalso
    split at h
    · simp at h
    · split at h <;> simp at h

theorem gameJoin_moves (s : GameState) (pid : String) :
    (gameJoin s pid).2.moves = s.moves := by
  unfold gameJoin
  by_cases h1 : pid ∈ s.players
  · simp [h1]
  · by_cases h2 : s.players.length = 2
    · simp [h1, h2]
    · by_cases h3 : s.players.length = 0
      · simp [h1, h2, h3]
      · by_cases h4 : s.players.length = 1 <;> simp [h1, h2, h3, h4]

theorem gameLeave_moves (s : GameState) (pid : String) :
    (gameLeave s pid).2.moves = s.moves := by
  unfold gameLeave
  by_cases h1 : pid ∉ s.players
  · simp [h1]
  · by_cases h2 : s.status = GameStatus.IN_PROGRESS <;> simp [h1, h2]

theorem gameApplyMove_ok_moves (s : GameState) (mv : GameMove)
    (h : (gameApplyMove s mv).1 = none) :
    (gameApplyMove s mv).2.moves =
      s.moves ++ [{ mv.move with gamePiece := pieceFor s mv.playerID }] := by
  have hv : moveIsValid s { mv.move with gamePiece := pieceFor s mv.playerID } = none := by
    rw [← gameApplyMove_fst]
    exact h
  unfold gameApplyMove
  simp only [hv]
  split
  · rfl
  · split <;> rfl

theorem gameApplyMove_xop (s : GameState) (mv : GameMove) :
    (gameApplyMove s mv).2.x = s.x ∧ (gameApplyMove s mv).2.o = s.o ∧
      (gameApplyMove s mv).2.players = s.players := by
  unfold gameApplyMove
  cases hv : moveIsValid s { mv.move with gamePiece := pieceFor s mv.playerID } with
  | some e => simp [hv]
  | none =>
    simp only [hv]
    by_cases hw : playerHasWonBool
        (s.moves ++ [{ mv.move with gamePiece := pieceFor s mv.playerID }])
        (pieceFor s mv.playerID) = true
    · simp [if_pos hw]
    · simp only [if_neg hw]
      by_cases h9 : s.moves.length = 8
      · simp [h9]
      · simp [h9]

theorem gameJoin_full_state (s : GameState) (q : String) (h2 : s.players.length = 2) :
    (gameJoin s q).2 = s := by
  unfold gameJoin
  by_cases h1 : q ∈ s.players
  · rw [if_pos h1]
  · rw [if_neg h1, if_pos h2]

theorem pairsNodup_append (s : GameState) (m : TicTacToeMove)
    (hnd : pairsNodup s.moves)
    (hfresh : ¬ ∃ q ∈ s.moves, q.col = m.col ∧ q.row = m.row) :
    pairsNodup (s.moves ++ [m]) := by
  have hnd2 : (s.moves.map fun q => (q.row, q.col)).Nodup := hnd
  show ((s.moves ++ [m]).map fun q => (q.row, q.col)).Nodup
  rw [List.map_append, List.nodup_append]
  refine ⟨hnd2, List.nodup_singleton _, ?_⟩
  intro x hx hx2
  simp only [List.map_cons, List.map_nil, List.mem_singleton] at hx2
  subst hx2
  simp only [List.mem_map] at hx
  obtain ⟨q, hq, hpair⟩ := hx
  apply hfresh
  exact ⟨q, hq, congrArg Prod.snd hpair, congrArg Prod.fst hpair⟩

theorem gameApplyMove_over_winner (s : GameState) (mv : GameMove)
    (h : (gameApplyMove s mv).1 = none)
    (hov : (gameApplyMove s mv).2.status = GameStatus.OVER) :
    (gameApplyMove s mv).2.winner = some mv.playerID ∨
      (gameApplyMove s mv).2.winner = none := by
  have hv : moveIsValid s { mv.move with gamePiece := pieceFor s mv.playerID } = none := by
    rw [← gameApplyMove_fst]
    exact h
  have hst := moveIsValid_none_status s _ hv
  unfold gameApplyMove at hov ⊢
  simp only [hv] at hov ⊢
  by_cases hw : playerHasWonBool
      (s.moves ++ [{ mv.move with gamePiece := pieceFor s mv.playerID }])
      (pieceFor s mv.playerID) = true
  · simp only [if_pos hw]
    left
    trivial
  · simp only [if_neg hw] at hov ⊢
    by_cases h9 :
        (s.moves ++ [{ mv.move with gamePiece := pieceFor s mv.playerID }]).length = 9
    · simp only [if_pos h9]
      right
      trivial
    · simp only [if_neg h9] at hov
      simp [hst] at hov

/-! ### Reachability helpers -/

theorem step_pairsNodup (s : GameState) (op : GameOp) (h : pairsNodup s.moves) :
    pairsNodup (gameStep s op).moves := by
  cases op with
  | join pid =>
    unfold gameStep gameOpRun
    rw [gameJoin_moves]
    exact h
  | leave pid =>
    unfold gameStep gameOpRun
    rw [gameLeave_moves]
    exact h
  | move mv =>
    unfold gameStep gameOpRun
    cases hr : (gameApplyMove s mv).1 with
    | some e =>
      rw [gameApplyMove_err_state s mv e hr]
      exact h
    | none =>
      rw [gameApplyMove_ok_moves s mv hr]
      exact pairsNodup_append s _ h
        (moveIsValid_none_fresh s _ (by rw [← gameApplyMove_fst]; exact hr))

theorem foldl_pairsNodup (ops : List GameOp) :
    ∀ s : GameState, pairsNodup s.moves → pairsNodup ((ops.foldl gameStep s).moves) := by
  induction ops with
  | nil =>
    intro s h
    exact h
  | cons op rest ih =>
    intro s h
    exact ih _ (step_pairsNodup s op h)

/-! ### The claims -/

/-- C1: every accepted move is appended to the move log and termination is
then evaluated: if some row, column or diagonal now holds three moves of
the mover's mark, the status becomes OVER with the mover as winner; else a
full log of 9 moves yields OVER with the winner unset; else the status
stays IN_PROGRESS and the winner field is untouched (in particular a win
is declared exactly when the move completes such a line, never earlier). -/
theorem claimC1_termination (s : GameState) (mv : GameMove)
    (hnd : pairsNodup s.moves) (h : (gameApplyMove s mv).1 = none) :
    (gameApplyMove s mv).2.moves =
        s.moves ++ [{ mv.move with gamePiece := pieceFor s mv.playerID }] ∧
      (lineWin (s.moves ++ [{ mv.move with gamePiece := pieceFor s mv.playerID }])
          (pieceFor s mv.playerID) →
        (gameApplyMove s mv).2.status = GameStatus.OVER ∧
          (gameApplyMove s mv).2.winner = some mv.playerID) ∧
      (¬ lineWin (s.moves ++ [{ mv.move with gamePiece := pieceFor s mv.playerID }])
          (pieceFor s mv.playerID) →
        (s.moves ++ [{ mv.move with gamePiece := pieceFor s mv.playerID }]).length = 9 →
        (gameApplyMove s mv).2.status = GameStatus.OVER ∧
          (gameApplyMove s mv).2.winner = none) ∧
      (¬ lineWin (s.moves ++ [{ mv.move with gamePiece := pieceFor s mv.playerID }])
          (pieceFor s mv.playerID) →
        (s.moves ++ [{ mv.move with gamePiece := pieceFor s mv.playerID }]).length ≠ 9 →
        (gameApplyMove s mv).2.status = GameStatus.IN_PROGRESS ∧
          (gameApplyMove s mv).2.winner = s.winner) := by
  have hv : moveIsValid s { mv.move with gamePiece := pieceFor s mv.playerID } = none := by
    rw [← gameApplyMove_fst]
    exact h
  have hst := moveIsValid_none_status s _ hv
  have hfresh := moveIsValid_none_fresh s _ hv
  have hnd2 := pairsNodup_append s _ hnd hfresh
  have hiff := playerHasWon_iff
    (s.moves ++ [{ mv.move with gamePiece := pieceFor s mv.playerID }])
    (pieceFor s mv.playerID) hnd2
  refine ⟨gameApplyMove_ok_moves s mv h, ?_, ?_, ?_⟩
  · intro hlw
    have hw := hiff.2 hlw
    unfold gameApplyMove
    simp [hv, hw]
  · intro hnl h9
    have hw : ¬ playerHasWonBool
        (s.moves ++ [{ mv.move with gamePiece := pieceFor s mv.playerID }])
        (pieceFor s mv.playerID) = true := fun hb => hnl (hiff.1 hb)
    have h9b : s.moves.length = 8 := by simpa using h9
    unfold gameApplyMove
    simp [hv, hw, h9b]
  · intro hnl h9
    have hw : ¬ playerHasWonBool
        (s.moves ++ [{ mv.move with gamePiece := pieceFor s mv.playerID }])
        (pieceFor s mv.playerID) = true := fun hb => hnl (hiff.1 hb)
    have h9b : ¬ s.moves.length = 8 := by
      intro h8
      apply h9
      simp [h8]
    unfold gameApplyMove
    simp [hv, hw, h9b, hst]

/-- Witness for C1: the fifth move of the fixture game completes column 0
for X, so the game ends with p1 as winner. -/
theorem claimC1_witness :
    (gameApplyMove (runGame fixSetupOps) fixWinMove).2.status = GameStatus.OVER ∧
      (gameApplyMove (runGame fixSetupOps) fixWinMove).2.winner = some "p1" :=
  (claimC1_termination (runGame fixSetupOps) fixWinMove (by decide) (by decide)).2.1
    (by decide)

/-- C2: applyMove validates in a fixed order — game not in progress, then
occupied target cell (even when the move is also out of turn), then the
deduced mark differing from the mark whose turn it is (empty log: X moves;
otherwise the mark opposite the last recorded move) — and otherwise
accepts the move. -/
theorem claimC2_validation (s : GameState) (pid gid : String) (m : TicTacToeMove) :
    (gameApplyMove s ⟨pid, gid, m⟩).1 = specValidationOutcome s pid m := by
  rw [gameApplyMove_fst]
  show moveIsValid s { m with gamePiece := pieceFor s pid } = _
  unfold moveIsValid specValidationOutcome turnMark
  dsimp only
  by_cases h1 : s.status = GameStatus.IN_PROGRESS
  · rw [if_neg (not_not_intro h1), if_neg (not_not_intro h1)]
    by_cases h2 : ∃ q ∈ s.moves, q.col = m.col ∧ q.row = m.row
    · have h2b : ∃ q ∈ s.moves, q.row = m.row ∧ q.col = m.col := by
        obtain ⟨q, hq, hc, hr⟩ := h2
        exact ⟨q, hq, hr, hc⟩
      rw [if_pos h2, if_pos h2b]
    · have h2b : ¬ ∃ q ∈ s.moves, q.row = m.row ∧ q.col = m.col := by
        rintro ⟨q, hq, hr, hc⟩
        exact h2 ⟨q, hq, hc, hr⟩
      rw [if_neg h2, if_neg h2b]
      cases hl : s.moves.getLast? with
      | none =>
        cases hpf : pieceFor s pid <;> simp [hl, hpf, oppositeMark]
      | some lastm =>
        cases hpf : pieceFor s pid <;> cases hlg : lastm.gamePiece <;>
          simp [hl, hpf, hlg, oppositeMark]
  · rw [if_pos h1, if_pos h1]

/-- C3: in every state reachable from a fresh game by any sequence of
join, leave and applyMove calls, no two recorded moves share a cell and
the move log holds at most 9 moves. -/
theorem claimC3_moveLog_invariant (ops : List GameOp) :
    pairsNodup (runGame ops).moves ∧ (runGame ops).moves.length ≤ 9 := by
  have hnd : pairsNodup (runGame ops).moves :=
    foldl_pairsNodup ops initialGame (by simp [initialGame, pairsNodup])
  refine ⟨hnd, ?_⟩
  have hnd2 : ((runGame ops).moves.map fun m => (m.row, m.col)).Nodup := hnd
  have hle := hnd2.length_le_card
  rw [List.length_map] at hle
  simpa using hle

/-- C4 evaluation at the failing input: after p1 wins (status OVER), a
leave by p2 moves the status back to WAITING_TO_START, so OVER is not
terminal in the code; the claim, the engine doc comment and the test suite
all require the status to remain OVER. -/
theorem claimC4_eval :
    (runGame fixWinOps).status = GameStatus.OVER ∧
      (runGame (fixWinOps ++ [GameOp.leave "p2"])).status =
        GameStatus.WAITING_TO_START :=
  ⟨by decide, by decide⟩

/-- C5: every validation failure of join, leave or applyMove leaves the
whole game state (move log, status, mark assignments, participants,
winner) exactly as it was before the call. -/
theorem claimC5_failure_state (s : GameState) (op : GameOp) (e : GameErr)
    (h : (gameOpRun s op).1 = some e) : (gameOpRun s op).2 = s := by
  cases op with
  | join pid => exact gameJoin_err_state s pid e h
  | leave pid => exact gameLeave_err_state s pid e h
  | move mv => exact gameApplyMove_err_state s mv e h

/-- Witness for C5: a move before the game starts fails with
GAME_NOT_IN_PROGRESS and the initial state is unchanged. -/
theorem claimC5_witness :
    (gameOpRun initialGame (fixMove "p1" 0 0)).1 = some GameErr.GAME_NOT_IN_PROGRESS ∧
      (gameOpRun initialGame (fixMove "p1" 0 0)).2 = initialGame :=
  ⟨by decide, claimC5_failure_state initialGame (fixMove "p1" 0 0)
    GameErr.GAME_NOT_IN_PROGRESS (by decide)⟩

/-- C6: leave fails with PLAYER_NOT_IN_GAME when the leaver is not a
recorded participant; a participant leaving while the game is IN_PROGRESS
makes the other participant the winner and the status OVER, regardless of
the move history; a participant leaving while the status is not
IN_PROGRESS resets the status to WAITING_TO_START. -/
theorem claimC6_leave (s : GameState) (pid a b : String) :
    (pid ∉ s.players → (gameLeave s pid).1 = some GameErr.PLAYER_NOT_IN_GAME) ∧
      (pid ∈ s.players → s.players = [a, b] → s.status = GameStatus.IN_PROGRESS →
        (gameLeave s pid).1 = none ∧
          (gameLeave s pid).2.status = GameStatus.OVER ∧
          (gameLeave s pid).2.winner = some (if pid = a then b else a)) ∧
      (pid ∈ s.players → s.status ≠ GameStatus.IN_PROGRESS →
        (gameLeave s pid).1 = none ∧
          (gameLeave s pid).2.status = GameStatus.WAITING_TO_START) := by
  refine ⟨?_, ?_, ?_⟩
  · intro hno
    unfold gameLeave
    rw [if_pos hno]
  · intro hin hpl hst
    have hmem : ¬ pid ∉ s.players := not_not_intro hin
    unfold gameLeave
    rw [if_neg hmem]
    by_cases hpa : pid = a
    · exact ⟨rfl, by simp [hst], by simp [hst, hpl, hpa]⟩
    · exact ⟨rfl, by simp [hst], by simp [hst, hpl, hpa, Ne.symm hpa]⟩
  · intro hin hst
    have hmem : ¬ pid ∉ s.players := not_not_intro hin
    unfold gameLeave
    rw [if_neg hmem]
    exact ⟨rfl, by simp [hst]⟩

/-- Witness for C6: Bob (p2) leaving the freshly started fixture game
forfeits it, making Alice (p1) the winner. -/
theorem claimC6_witness :
    (gameLeave (runGame [GameOp.join "p1", GameOp.join "p2"]) "p2").1 = none ∧
      (gameLeave (runGame [GameOp.join "p1", GameOp.join "p2"]) "p2").2.status =
        GameStatus.OVER ∧
      (gameLeave (runGame [GameOp.join "p1", GameOp.join "p2"]) "p2").2.winner =
        some "p1" := by
  have h := (claimC6_leave (runGame [GameOp.join "p1", GameOp.join "p2"])
      "p2" "p1" "p2").2.1 (by decide) (by decide) (by decide)
  refine ⟨h.1, h.2.1, ?_⟩
  rw [h.2.2]
  decide

/-- C7 fails on the code: after p1 and p2 join, p2 leaves and p3 joins;
the later join reassigns mark O from p2 to p3, so the second joiner's
assignment does not persist for the game object's lifetime. -/
theorem claimC7_counterexample :
    (runGame [GameOp.join "p1", GameOp.join "p2"]).o = some "p2" ∧
      (runGame [GameOp.join "p1", GameOp.join "p2", GameOp.leave "p2",
        GameOp.join "p3"]).o = some "p3" :=
  ⟨by decide, by decide⟩

theorem steady_marks (ops : List GameOp) :
    ∀ s : GameState, (∀ op ∈ ops, ∀ pid, op ≠ GameOp.leave pid) →
      s.players.length = 2 →
      (ops.foldl gameStep s).x = s.x ∧ (ops.foldl gameStep s).o = s.o := by
  induction ops with
  | nil =>
    intro s _ _
    exact ⟨rfl, rfl⟩
  | cons op rest ih =>
    intro s hnl h2
    have hrest : ∀ op2 ∈ rest, ∀ pid, op2 ≠ GameOp.leave pid :=
      fun op2 hm => hnl op2 (List.mem_cons_of_mem op hm)
    rw [List.foldl_cons]
    cases op with
    | join q =>
      have hstep : gameStep s (GameOp.join q) = s := gameJoin_full_state s q h2
      rw [hstep]
      exact ih s hrest h2
    | leave q =>
      exact absurd rfl (hnl (GameOp.leave q) (List.mem_cons_self _ _) q)
    | move mv =>
      have hx2 : (gameStep s (GameOp.move mv)).x = s.x := (gameApplyMove_xop s mv).1
      have ho2 : (gameStep s (GameOp.move mv)).o = s.o := (gameApplyMove_xop s mv).2.1
      have hp2 : (gameStep s (GameOp.move mv)).players = s.players :=
        (gameApplyMove_xop s mv).2.2
      have h2b : (gameStep s (GameOp.move mv)).players.length = 2 := by
        rw [hp2]
        exact h2
      have hih := ih (gameStep s (GameOp.move mv)) hrest h2b
      exact ⟨hih.1.trans hx2, hih.2.trans ho2⟩

/-- C7 amended: the first joiner receives mark X while the status stays
WAITING_TO_START, the second receives mark O and the status becomes
IN_PROGRESS; join fails with PLAYER_ALREADY_IN_GAME for a current
participant and with GAME_FULL when two participants are present; and the
two mark assignments persist across any further operations as long as no
participant leaves (after a leave, a later join may reassign the vacated
mark, as the counterexample shows). -/
theorem claimC7_join_marks (p1 p2 : String) (hne : p1 ≠ p2) (ops : List GameOp)
    (hnl : ∀ op ∈ ops, ∀ pid, op ≠ GameOp.leave pid) :
    (runGame [GameOp.join p1]).x = some p1 ∧
      (runGame [GameOp.join p1]).status = GameStatus.WAITING_TO_START ∧
      (runGame [GameOp.join p1, GameOp.join p2]).x = some p1 ∧
      (runGame [GameOp.join p1, GameOp.join p2]).o = some p2 ∧
      (runGame [GameOp.join p1, GameOp.join p2]).status = GameStatus.IN_PROGRESS ∧
      (runGame ([GameOp.join p1, GameOp.join p2] ++ ops)).x = some p1 ∧
      (runGame ([GameOp.join p1, GameOp.join p2] ++ ops)).o = some p2 ∧
      (∀ t : GameState, ∀ q : String, q ∈ t.players →
        (gameJoin t q).1 = some GameErr.PLAYER_ALREADY_IN_GAME) ∧
      (∀ t : GameState, ∀ q : String, q ∉ t.players → t.players.length = 2 →
        (gameJoin t q).1 = some GameErr.GAME_FULL) := by
  have e2 : runGame [GameOp.join p1, GameOp.join p2] =
      { moves := [], status := GameStatus.IN_PROGRESS, x := some p1, o := some p2,
        winner := none, players := [p1, p2] } := by
    simp [runGame, gameStep, gameOpRun, gameJoin, initialGame, Ne.symm hne]
  have e3 : runGame ([GameOp.join p1, GameOp.join p2] ++ ops) =
      ops.foldl gameStep (runGame [GameOp.join p1, GameOp.join p2]) := by
    unfold runGame
    rw [List.foldl_append]
  have hsteady := steady_marks ops (runGame [GameOp.join p1, GameOp.join p2]) hnl
    (by rw [e2]; rfl)
  refine ⟨rfl, rfl, by rw [e2], by rw [e2], by rw [e2], ?_, ?_, ?_, ?_⟩
  · rw [e3, hsteady.1, e2]
  · rw [e3, hsteady.2, e2]
  · intro t q hq
    unfold gameJoin
    rw [if_pos hq]
  · intro t q hq h2
    unfold gameJoin
    rw [if_neg hq, if_pos h2]

/-- Witness for C7 (amended) at two concrete participants. -/
theorem claimC7_witness :
    (runGame [GameOp.join "p1", GameOp.join "p2"]).x = some "p1" ∧
      (runGame [GameOp.join "p1", GameOp.join "p2"]).o = some "p2" := by
  have h := claimC7_join_marks "p1" "p2" (by decide) [] (by simp)
  exact ⟨h.2.2.1, h.2.2.2.1⟩

/-- C9: the router fails leave and move commands with GAME_NOT_IN_PROGRESS
when no game instance exists and with GAME_ID_MISSMATCH when the command
carries a different game id than the current game; any other command kind
fails with INVALID_COMMAND; and an engine failure propagates unchanged to
the caller. -/
theorem claimC9_router (a : AreaState) (p : PlayerInfo) (m : TicTacToeMove) :
    (a.game = none → ∀ cid : String,
      (handleCommand a (Command.leave cid) p).1 = some GameErr.GAME_NOT_IN_PROGRESS ∧
        (handleCommand a (Command.move cid m) p).1 =
          some GameErr.GAME_NOT_IN_PROGRESS) ∧
      (∀ g : GameState, ∀ cid : String, a.game = some g → cid ≠ a.gameId →
        (handleCommand a (Command.leave cid) p).1 = some GameErr.GAME_ID_MISSMATCH ∧
          (handleCommand a (Command.move cid m) p).1 =
            some GameErr.GAME_ID_MISSMATCH) ∧
      ((handleCommand a Command.other p).1 = some GameErr.INVALID_COMMAND) ∧
      (∀ g : GameState, ∀ e : GameErr, a.game = some g →
        (gameLeave g p.id).1 = some e →
        (handleCommand a (Command.leave a.gameId) p).1 = some e) ∧
      (∀ g : GameState, ∀ e : GameErr, a.game = some g →
        (gameApplyMove g ⟨p.id, a.gameId, m⟩).1 = some e →
        (handleCommand a (Command.move a.gameId m) p).1 = some e) := by
  refine ⟨?_, ?_, rfl, ?_, ?_⟩
  · intro hg cid
    constructor
    · simp [handleCommand, handleLeaveCommand, hg]
    · simp [handleCommand, handleMoveCommand, hg]
  · intro g cid hg hne
    constructor
    · simp [handleCommand, handleLeaveCommand, hg, hne]
    · simp [handleCommand, handleMoveCommand, hg, Ne.symm hne]
  · intro g e hg hle
    rcases hpair : gameLeave g p.id with ⟨f, g2⟩
    rw [hpair] at hle
    have hf : f = some e := hle
    subst hf
    simp [handleCommand, handleLeaveCommand, hg, hpair]
  · intro g e hg hmv
    rcases hpair : gameApplyMove g ⟨p.id, a.gameId, m⟩ with ⟨f, g2⟩
    rw [hpair] at hmv
    have hf : f = some e := hmv
    subst hf
    simp [handleCommand, handleMoveCommand, hg, hpair]

/-- C10: applyMove never checks that the caller belongs to the game: every
id other than the holder of mark X is treated as playing O, so an
otherwise-legal O move submitted under an id in neither seat is accepted
and appended as an O move, and when that move completes a line the foreign
id becomes the winner. -/
theorem claimC10_foreign (s : GameState) (pid gid : String) (m : TicTacToeMove)
    (hx : s.x ≠ some pid)
    (hok : moveIsValid s { m with gamePiece := GamePiece.O } = none) :
    (gameApplyMove s ⟨pid, gid, m⟩).1 = none ∧
      (gameApplyMove s ⟨pid, gid, m⟩).2.moves =
        s.moves ++ [{ m with gamePiece := GamePiece.O }] ∧
      (playerHasWonBool (s.moves ++ [{ m with gamePiece := GamePiece.O }])
          GamePiece.O = true →
        (gameApplyMove s ⟨pid, gid, m⟩).2.status = GameStatus.OVER ∧
          (gameApplyMove s ⟨pid, gid, m⟩).2.winner = some pid) := by
  have hpf : pieceFor s pid = GamePiece.O := by
    unfold pieceFor
    rw [if_neg hx]
  have h1 : (gameApplyMove s ⟨pid, gid, m⟩).1 = none := by
    rw [gameApplyMove_fst]
    show moveIsValid s { m with gamePiece := pieceFor s pid } = none
    rw [hpf]
    exact hok
  refine ⟨h1, ?_, ?_⟩
  · have hmv := gameApplyMove_ok_moves s ⟨pid, gid, m⟩ h1
    rw [hmv]
    show s.moves ++ [{ m with gamePiece := pieceFor s pid }] = _
    rw [hpf]
  · intro hw
    unfold gameApplyMove
    dsimp only
    rw [hpf]
    simp [hok, hw]

/-- Witness for C10: in the fixture game it is O's turn and the foreign id
p9 completes row 1 for O, ending the game with p9 recorded as winner. -/
theorem claimC10_witness :
    (gameApplyMove (runGame fixForeignOps) ⟨"p9", "G1", ⟨1, 2, GamePiece.X⟩⟩).1 =
        none ∧
      (gameApplyMove (runGame fixForeignOps)
          ⟨"p9", "G1", ⟨1, 2, GamePiece.X⟩⟩).2.status = GameStatus.OVER ∧
      (gameApplyMove (runGame fixForeignOps)
          ⟨"p9", "G1", ⟨1, 2, GamePiece.X⟩⟩).2.winner = some "p9" := by
  have h := claimC10_foreign (runGame fixForeignOps) "p9" "G1" ⟨1, 2, GamePiece.X⟩
    (by decide) (by decide)
  exact ⟨h.1, (h.2.2 (by decide)).1, (h.2.2 (by decide)).2⟩

/-- C8: after every successful leave or move command whose resulting game
status is OVER, exactly one outcome record is appended to the ledger —
scoring the winner 1 and the loser 0 (on a forfeit-leave the leaver scores
0), and scoring both participants 0 on a tie — provided the area's first
two occupants are exactly the two participants; no record is appended by a
join command, by a failing command, or by a command after which the status
is not OVER. -/
theorem claimC8_ledger (a : AreaState) (g : GameState) (q0 q1 p : PlayerInfo)
    (m : TicTacToeMove) (w : String)
    (hg : a.game = some g) (ho : a.occupants = [q0, q1])
    (hn : q0.userName ≠ q1.userName) :
    ((handleJoinCommand a p).2.history = a.history) ∧
      (∀ cid e, (handleLeaveCommand a cid p).1 = some e →
        (handleLeaveCommand a cid p).2.history = a.history) ∧
      (∀ cid e, (handleMoveCommand a cid p m).1 = some e →
        (handleMoveCommand a cid p m).2.history = a.history) ∧
      ((gameLeave g p.id).1 = none →
        (gameLeave g p.id).2.status ≠ GameStatus.OVER →
        (handleLeaveCommand a a.gameId p).2.history = a.history) ∧
      ((gameLeave g p.id).1 = none →
        (gameLeave g p.id).2.status = GameStatus.OVER →
        (gameLeave g p.id).2.winner = some w → (w = q0.id ∨ w = q1.id) →
        q0.id ≠ q1.id →
        (handleLeaveCommand a a.gameId p).2.history = a.history ++
          [⟨a.gameId, if w = q0.id then [(q0.userName, 1), (q1.userName, 0)]
            else [(q1.userName, 1), (q0.userName, 0)]⟩]) ∧
      ((gameApplyMove g ⟨p.id, a.gameId, m⟩).1 = none →
        (gameApplyMove g ⟨p.id, a.gameId, m⟩).2.status = GameStatus.OVER →
        (gameApplyMove g ⟨p.id, a.gameId, m⟩).2.winner ≠ none →
        (gameApplyMove g ⟨p.id, a.gameId, m⟩).2.winner = some p.id) ∧
      ((gameApplyMove g ⟨p.id, a.gameId, m⟩).1 = none →
        (gameApplyMove g ⟨p.id, a.gameId, m⟩).2.status ≠ GameStatus.OVER →
        (handleMoveCommand a a.gameId p m).2.history = a.history) ∧
      ((gameApplyMove g ⟨p.id, a.gameId, m⟩).1 = none →
        (gameApplyMove g ⟨p.id, a.gameId, m⟩).2.status = GameStatus.OVER →
        (gameApplyMove g ⟨p.id, a.gameId, m⟩).2.winner ≠ none →
        (p = q0 ∨ p = q1) →
        (handleMoveCommand a a.gameId p m).2.history = a.history ++
          [⟨a.gameId, [(p.userName, 1), ((if p = q0 then q1 else q0).userName, 0)]⟩]) ∧
      ((gameApplyMove g ⟨p.id, a.gameId, m⟩).1 = none →
        (gameApplyMove g ⟨p.id, a.gameId, m⟩).2.status = GameStatus.OVER →
        (gameApplyMove g ⟨p.id, a.gameId, m⟩).2.winner = none →
        (handleMoveCommand a a.gameId p m).2.history = a.history ++
          [⟨a.gameId, [(q0.userName, 0), (q1.userName, 0)]⟩]) := by
  have hocc0 : occAt a 0 = q0 := by simp [occAt, ho]
  have hocc1 : occAt a 1 = q1 := by simp [occAt, ho]
  refine ⟨?_, ?_, ?_, ?_, ?_, ?_, ?_, ?_, ?_⟩
  · unfold handleJoinCommand
    rcases hj : gameJoin (a.game.getD initialGame) p.id with ⟨f, g2⟩
    cases f <;> simp [hj]
  · intro cid e hER
    unfold handleLeaveCommand at hER ⊢
    by_cases hcid : cid ≠ a.gameId
    · simp [hg, hcid]
    · rcases hpair : gameLeave g p.id with ⟨f, g2⟩
      cases f with
      | some e2 => simp [hg, hcid, hpair]
      | none =>
        by_cases hov : g2.status = GameStatus.OVER
        · simp [hg, hcid, hpair, hov] at hER
        · simp [hg, hcid, hpair, hov] at hER
  · intro cid e hER
    unfold handleMoveCommand at hER ⊢
    by_cases hcid : a.gameId ≠ cid
    · simp [hg, hcid]
    · rcases hpair : gameApplyMove g ⟨p.id, cid, m⟩ with ⟨f, g2⟩
      cases f with
      | some e2 => simp [hg, hcid, hpair]
      | none =>
        by_cases hov : g2.status = GameStatus.OVER
        · by_cases hwn : g2.winner ≠ none
          · simp [hg, hcid, hpair, hov, hwn] at hER
          · simp [hg, hcid, hpair, hov, hwn] at hER
        · simp [hg, hcid, hpair, hov] at hER
  · intro hok hnov
    rcases hpair : gameLeave g p.id with ⟨f, g2⟩
    rw [hpair] at hok hnov
    have hf : f = none := hok
    subst hf
    have hnov2 : g2.status ≠ GameStatus.OVER := hnov
    unfold handleLeaveCommand
    simp [hg, hpair, hnov2]
  · intro hok hov hw hwin hid
    rcases hpair : gameLeave g p.id with ⟨f, g2⟩
    rw [hpair] at hok hov hw
    have hf : f = none := hok
    subst hf
    have hov2 : g2.status = GameStatus.OVER := hov
    have hw2 : g2.winner = some w := hw
    unfold handleLeaveCommand
    rcases hwin with hcase | hcase
    · subst hcase
      simp [hg, hpair, hov2, hw2, hocc0, hocc1]
    · subst hcase
      simp [hg, hpair, hov2, hw2, hocc0, hocc1, hid, Ne.symm hid]
  · intro hok hov hwn
    rcases gameApplyMove_over_winner g ⟨p.id, a.gameId, m⟩ hok hov with hc | hc
    · exact hc
    · exact absurd hc hwn
  · intro hok hnov
    rcases hpair : gameApplyMove g ⟨p.id, a.gameId, m⟩ with ⟨f, g2⟩
    rw [hpair] at hok hnov
    have hf : f = none := hok
    subst hf
    have hnov2 : g2.status ≠ GameStatus.OVER := hnov
    unfold handleMoveCommand
    simp [hg, hpair, hnov2]
  · intro hok hov hwn hpq
    rcases hpair : gameApplyMove g ⟨p.id, a.gameId, m⟩ with ⟨f, g2⟩
    rw [hpair] at hok hov hwn
    have hf : f = none := hok
    subst hf
    have hov2 : g2.status = GameStatus.OVER := hov
    have hwn2 : g2.winner ≠ none := hwn
    unfold handleMoveCommand
    rcases hpq with hcase | hcase
    · subst hcase
      simp [hg, hpair, hov2, hwn2, hocc0, hocc1]
    · subst hcase
      have hpq0 : p ≠ q0 := fun he => hn (congrArg PlayerInfo.userName he).symm
      simp [hg, hpair, hov2, hwn2, hocc0, hocc1, hn, hpq0]
  · intro hok hov hwn
    rcases hpair : gameApplyMove g ⟨p.id, a.gameId, m⟩ with ⟨f, g2⟩
    rw [hpair] at hok hov hwn
    have hf : f = none := hok
    subst hf
    have hov2 : g2.status = GameStatus.OVER := hov
    have hwn2 : g2.winner = none := hwn
    unfold handleMoveCommand
    simp [hg, hpair, hov2, hwn2, hocc0, hocc1]

/-- Witness for C8: Bob leaving the running fixture game appends exactly
one outcome record, scoring Alice 1 and Bob 0. -/
theorem claimC8_witness :
    (handleLeaveCommand fixArea "G1" fixBob).2.history =
      [⟨"G1", [("Alice", 1), ("Bob", 0)]⟩] := by
  have h := (claimC8_ledger fixArea (runGame [GameOp.join "p1", GameOp.join "p2"])
      fixAlice fixBob fixBob ⟨0, 0, GamePiece.X⟩ "p1" rfl rfl (by decide)).2.2.2.2.1
    (by decide) (by decide) (by decide) (Or.inl rfl) (by decide)
  exact h.trans (by decide)

/-- Witness for C9: on an area with no installed game a leave command
fails with GAME_NOT_IN_PROGRESS and an unsupported command kind fails with
INVALID_COMMAND. -/
theorem claimC9_witness :
    (handleCommand fixEmptyArea (Command.leave "G1") fixAlice).1 =
        some GameErr.GAME_NOT_IN_PROGRESS ∧
      (handleCommand fixEmptyArea Command.other fixAlice).1 =
        some GameErr.INVALID_COMMAND := by
  have h := claimC9_router fixEmptyArea fixAlice ⟨0, 0, GamePiece.X⟩
  exact ⟨(h.1 rfl "G1").1, h.2.2.1⟩

end TicTacToe
